import Mathlib

/-!
Verification development for the `mdx_include` include-resolution engine
(`src/mdx_include/mdx_include.py`).

The Python source is shallowly embedded below.  Lines of the document are
Lean `String`s; Python character-index slicing is modelled on `List Char`.
The mutable preprocessor state (the two content caches, the cycle tracker
and, for observation, the log of retrieval-capability invocations) is
threaded explicitly through every function as a `PState`.  Python
exceptions are modelled with `Except Err`; the raising code path returns
the state as it was at the moment of the raise, matching the fact that
in-place mutations performed before a Python exception persist.

External capabilities (file reads, HTTP downloads, the set of encodings
known to the runtime, the user's home directory) are collected in an
`Env` record.  The compiled directive regex is likewise supplied as a
function `String → List RMatch` producing the per-line match list, with
each `RMatch` holding exactly the named groups and the span that the
source extracts from a regex match object.
-/

deriving instance DecidableEq for Except

namespace MdxInclude

/-! ## Python string primitives (character-exact models) -/

/-- Python `s[n:]` on character indices. -/
def pyDrop (s : String) (n : Nat) : String := String.mk (s.toList.drop n)

/-- Python `s[a:b]` on character indices. -/
def pySlice (s : String) (a b : Nat) : String := String.mk ((s.toList.drop a).take (b - a))

/-- Python `len(item) - len(item.lstrip())`: the count of leading whitespace characters. -/
def leadingWs (s : String) : Nat := (s.toList.takeWhile Char.isWhitespace).length

/-- Negated Python truthiness of `item.strip()`: true when the line has no non-whitespace character. -/
def isBlank (s : String) : Bool := s.toList.all Char.isWhitespace

/-- Python `s.startswith(pre)`. -/
def startsWithStr (s pre : String) : Bool := pre.toList.isPrefixOf s.toList

/-- Python `s.endswith(suf)`. -/
def endsWithStr (s suf : String) : Bool := suf.toList.isSuffixOf s.toList

/-- Python `s.rstrip("/")`. -/
def rstripSlashes (s : String) : String :=
  String.mk ((s.toList.reverse.dropWhile (fun c => c == '/')).reverse)

/-- Split a character list at every occurrence of a separator character;
models Python `str.split(sep)` for a one-character separator. -/
def splitOnChar (c : Char) : List Char → List (List Char)
  | [] => [[]]
  | x :: xs =>
    let r := splitOnChar c xs
    if x == c then [] :: r else (x :: r.headD []) :: r.tail

/-- Python `str.splitlines()` restricted to the newline character, the only
line break produced by the embedded sources (content is always suffixed
with one `"\n"` before being split). -/
def pySplitlinesNl (s : String) : List String :=
  let l := s.toList
  if l.isEmpty then []
  else
    let parts := (splitOnChar '\n' l).map String.mk
    if l.getLast? = some '\n' then parts.dropLast else parts

/-- Python `s.replace("-", "_")` for the one-character pattern used by the source. -/
def replaceDashUnderscore (s : String) : String :=
  String.mk (s.toList.map (fun c => if c == '-' then '_' else c))

/-- Digits of a decimal numeral to a number; models Python `int(s)` on the
numeral strings admitted by the range grammar, `none` on anything else. -/
def decDigits? (l : List Char) : Option Nat :=
  if l ≠ [] ∧ l.all Char.isDigit then
    some (l.foldl (fun n c => n * 10 + (c.toNat - 48)) 0)
  else none

/-! ## Models of `os.path` and `urllib.parse` (Python standard library) -/

/-- Python `os.path.isabs` on POSIX. -/
def isabs (p : String) : Bool := startsWithStr p "/"

/-- Python `os.path.join(a, b)` on POSIX for two arguments. -/
def joinPath (a b : String) : String :=
  if isabs b then b
  else if a = "" ∨ endsWithStr a "/" then a ++ b
  else a ++ "/" ++ b

/-- Python `os.path.dirname` on POSIX: everything up to the last `/`,
with trailing slashes stripped unless the head is all slashes. -/
def dirname (p : String) : String :=
  let l := p.toList
  let tailLen := (l.reverse.takeWhile (fun c => c ≠ '/')).length
  if tailLen = l.length then ""
  else
    let head := l.take (l.length - tailLen)
    if head.all (fun c => c = '/') then String.mk head
    else String.mk (head.reverse.dropWhile (fun c => c == '/')).reverse

/-- Join path components with `/`. -/
def joinComps (comps : List String) : String :=
  String.mk (((comps.map String.toList).intersperse ['/']).flatten)

/-- Python `os.path.normpath` on POSIX: drops empty and `.` components,
resolves `..` against the preceding component, preserves a double leading
slash and collapses longer slash runs. -/
def normpath (p : String) : String :=
  let l := p.toList
  if l.isEmpty then "."
  else
    let initSlashes : Nat :=
      if startsWithStr p "//" ∧ ¬ startsWithStr p "///" then 2
      else if startsWithStr p "/" then 1 else 0
    let comps := (splitOnChar '/' l).map String.mk
    let newComps := comps.foldl (fun acc comp =>
      if comp = "" ∨ comp = "." then acc
      else if comp ≠ ".." ∨ (initSlashes = 0 ∧ acc = []) ∨ (acc ≠ [] ∧ acc.getLastD "" = "..") then
        acc ++ [comp]
      else if acc ≠ [] then acc.dropLast
      else acc) []
    let r := String.mk (List.replicate initSlashes '/') ++ joinComps newComps
    if r = "" then "." else r

/-- Python `os.path.expanduser` on POSIX, restricted to expansion against the
`HOME` value carried by the environment.  The `~user` form performs a pwd
database lookup — environment state outside this embedding — and is left
unexpanded here, which coincides with Python's behaviour when no such user
exists. -/
def expanduser (home p : String) : String :=
  if ¬ startsWithStr p "~" then p
  else if p = "~" ∨ startsWithStr p "~/" then
    let uh := rstripSlashes home
    let r := uh ++ pyDrop p 1
    if r = "" then "/" else r
  else p

/-- Characters allowed after the first character of a URL scheme. -/
def isSchemeChar (c : Char) : Bool := c.isAlphanum || c == '+' || c == '-' || c == '.'

/-- Strip a syntactically valid `scheme:` head from a URL's characters, as
`urllib.parse.urlparse` does before looking for a netloc. -/
def urlRestAfterScheme (l : List Char) : List Char :=
  let pre := l.takeWhile (fun c => c ≠ ':')
  if pre.length < l.length ∧ pre ≠ [] ∧ (pre.headD 'a').isAlpha ∧ pre.all (fun c => isSchemeChar c) then
    l.drop (pre.length + 1)
  else l

/-- Python `urlparse(s).netloc`: nonempty exactly when, after an optional
scheme, the string continues with `//`; the netloc runs to the next
`/`, `?` or `#`. -/
def urlNetloc (s : String) : String :=
  let rest := urlRestAfterScheme s.toList
  if rest.take 2 = ['/', '/'] then
    String.mk ((rest.drop 2).takeWhile (fun c => !(c == '/' || c == '?' || c == '#')))
  else ""

/-- Python `urlunparse(urlparse(s))`, which is the identity on the URL strings
this source feeds it (parse followed by unparse round-trips the string). -/
def urlUnparseParse (s : String) : String := s

/-! ## Data model: environment, tracker, state, configuration, matches -/

/-- External capabilities of the engine: raw retrieval (the text of a local
file or remote resource, `none` on any I/O, HTTP or decoding error), the
user's home directory, and the set of encoding module names the runtime
supports (the `pkgutil` scan of the `encodings` package, `aliases` removed). -/
structure Env where
  readLocal : String → String → Option String
  readRemote : String → String → Option String
  home : String
  encodings : List String

/-- Modelled from the spec: the external `cyclic.Cyclic` tracker.  `root`
maps each key ever included in the run to its ancestor chain; `add` merges
the child's chain with the parent's chain plus the parent itself; a key is
cyclic when it appears in its own chain. -/
structure Cyclic where
  root : List (String × List String)
deriving DecidableEq, Repr

/-- Ancestor chain recorded for a key (empty when the key is unknown). -/
def Cyclic.rootGet (c : Cyclic) (k : String) : List String :=
  (c.root.lookup k).getD []

/-- Record that `child` was reached while expanding `parent`. -/
def Cyclic.add (c : Cyclic) (child parent : String) : Cyclic :=
  ⟨(child, c.rootGet child ++ c.rootGet parent ++ [parent]) :: c.root⟩

/-- Does including `k` again re-enter a file on the current expansion path? -/
def Cyclic.is_cyclic (c : Cyclic) (k : String) : Bool :=
  (c.rootGet k).contains k

/-- Mutable state of the preprocessor: the two content caches (association
lists keyed by resolved path or URL), the cycle tracker, and — so that the
number of retrieval-capability invocations is observable — the ordered logs
of keys passed to the local and remote raw retrieval functions. -/
structure PState where
  cacheLocal : List (String × List String)
  cacheRemote : List (String × List String)
  cyclic : Cyclic
  localCalls : List String
  remoteCalls : List String
deriving DecidableEq, Repr

/-- Configuration surface of the extension, with the option names of the
source.  `recurs_local` and `recurs_remote` are tri-state in the source
(`True`, `False` or `None`, since `setConfig` lets `None` and booleans
stand in for each other), hence `Option Bool` here with `none` for `None`. -/
structure Config where
  base_path : String
  encoding : String
  allow_local : Bool
  allow_remote : Bool
  truncate_on_failure : Bool
  recurs_local : Option Bool
  recurs_remote : Option Bool
  stx_recurs_on : String
  stx_recurs_off : String
  content_cache_local : Bool
  content_cache_remote : Bool
  content_cache_clean_local : Bool
  content_cache_clean_remote : Bool
  allow_circular_inclusion : Bool
  line_slice_separator : List String
  recursive_relative_path : Bool
deriving DecidableEq, Repr

/-- One application of the compiled directive regex to a line: exactly the
named groups the source reads out of the match object, plus `group(0)` in
`total` and the character span `(s, e)`.  `escape` is the truthiness of the
`escape` group; `recursive` is the one-character recursion-toggle group
(`none` when absent); `strip_indent` and `apply_indent` match `""` when the
marker is absent; `lines` and `encoding` are `none` when their optional
groups did not participate. -/
structure RMatch where
  escape : Bool
  recursive : Option String
  strip_indent : String
  apply_indent : String
  path : String
  lines : Option String
  encoding : Option String
  total : String
  s : Nat
  e : Nat
deriving DecidableEq, Repr

/-- Errors a run can surface: the `RuntimeError` raised on disallowed
circular inclusion (carrying the offending file, the parent in which it was
found, and the recorded ancestor chain), the `ValueError` Python's `min`
raises on an empty sequence during indent stripping, and exhaustion of the
termination fuel of the embedding. -/
inductive Err where
  | cyclicInclusion (filename parent : String) (parents : List String)
  | valueErrorMinEmpty
  | outOfFuel
deriving DecidableEq, Repr

/-! ## Module-level retrieval functions -/

/-- Model of `encoding_exists`: the encoding (a regex group, `None` when
absent) is known when it, or its dash-to-underscore form, names an
available encodings module. -/
def encoding_exists (env : Env) (encoding : Option String) : Bool :=
  match encoding with
  | none => false
  | some enc =>
    if enc ≠ "" then
      env.encodings.contains enc || env.encodings.contains (replaceDashUnderscore enc)
    else false

/-- Module-level `get_remote_content_list`: download, decode, suffix one
newline and split into lines; empty list and `False` on any failure. -/
def get_remote_content_list (env : Env) (url : String) (encoding : String) :
    List String × Bool :=
  match env.readRemote url encoding with
  | some txt => (pySplitlinesNl (txt ++ "\n"), true)
  | none => ([], false)

/-- Module-level `get_local_content_list`: read the file with the given
encoding, suffix one newline and split into lines; empty list and `False`
on any failure. -/
def get_local_content_list (env : Env) (filename : String) (encoding : String) :
    List String × Bool :=
  match env.readLocal filename encoding with
  | some txt => (pySplitlinesNl (txt ++ "\n"), true)
  | none => ([], false)

/-! ## Model of the external `rcslice.RowSlice` -/

/-- Modelled from the spec: one item of a range specification, either a
single 1-based line number `N` or an inclusive range `A-B` (`B < A` means
the reversed sub-range); anything else is dropped. -/
def parseRangeItem (s : String) : Option (Nat × Nat) :=
  match (splitOnChar '-' s.toList).map String.mk with
  | [a] => (decDigits? a.toList).map (fun n => (n, n))
  | [a, b] =>
    match decDigits? a.toList, decDigits? b.toList with
    | some x, some y => some (x, y)
    | _, _ => none
  | _ => none

/-- Rows whose 1-based index lies in `[a, b]`, in document order;
out-of-bounds indices are dropped silently. -/
def extractAsc (lines : List String) (a b : Nat) : List String :=
  (List.range lines.length).filterMap
    (fun i => if a ≤ i + 1 ∧ i + 1 ≤ b then lines.get? i else none)

/-- One extracted group: ascending for `a ≤ b`, reversed otherwise. -/
def extractRange (lines : List String) (a b : Nat) : List String :=
  if a ≤ b then extractAsc lines a b else (extractAsc lines b a).reverse

/-- Modelled from the spec: the external `rcslice.RowSlice.slice`.  Extracts
each group of the comma-separated specification and inserts the two
configured separator lines between non-adjacent consecutive groups. -/
def rowSliceSlice (sep : List String) (lines : List String) (speci : String) :
    List String :=
  let items := ((splitOnChar ',' speci.toList).map String.mk).filterMap parseRangeItem
  (items.foldl (fun (acc : List String × Option (Nat × Nat)) item =>
    let sepLines := match acc.2 with
      | some prev => if prev.2 + 1 = item.1 then [] else sep
      | none => []
    (acc.1 ++ sepLines ++ extractRange lines item.1 item.2, some item)) ([], none)).1

/-! ## Preprocessor methods (`IncludePreprocessor`)

The recursive re-entry into the line processor is passed to each helper as
an explicit function argument `recurse`; the fueled top-level definition
`mdx_include_get_processed_lines` ties the knot. -/

/-- Shape of the recursive re-entry: content lines and the filename that
becomes the parent of the nested expansion. -/
abbrev Recurse := List String → String → PState → Except Err (List String) × PState

/-- Method `get_local_content_list`: serve from the local cache when enabled
and present, otherwise invoke the retrieval capability (logged in
`localCalls`) and cache the lines on success when caching is enabled. -/
def ipGetLocalContentList (cfg : Config) (env : Env) (filename encoding : String)
    (st : PState) : (List String × Bool) × PState :=
  if cfg.content_cache_local ∧ (st.cacheLocal.lookup filename).isSome then
    (((st.cacheLocal.lookup filename).getD [], true), st)
  else
    let p := get_local_content_list env filename encoding
    let st1 := { st with localCalls := st.localCalls ++ [filename] }
    if p.2 ∧ cfg.content_cache_local then
      (p, { st1 with cacheLocal := (filename, p.1) :: st1.cacheLocal })
    else
      (p, st1)

/-- Method `get_remote_content_list`: remote analogue of the local wrapper. -/
def ipGetRemoteContentList (cfg : Config) (env : Env) (filename encoding : String)
    (st : PState) : (List String × Bool) × PState :=
  if cfg.content_cache_remote ∧ (st.cacheRemote.lookup filename).isSome then
    (((st.cacheRemote.lookup filename).getD [], true), st)
  else
    let p := get_remote_content_list env filename encoding
    let st1 := { st with remoteCalls := st.remoteCalls ++ [filename] }
    if p.2 ∧ cfg.content_cache_remote then
      (p, { st1 with cacheRemote := (filename, p.1) :: st1.cacheRemote })
    else
      (p, st1)

/-- Method `mdx_include_get_cyclic_safe_processed_line_list`: recurse when the
filename is not cyclic; on a cycle, return the lines untouched when circular
inclusion is allowed, otherwise raise naming the file, the parent and the
recorded ancestor chain. -/
def mdx_include_get_cyclic_safe_processed_line_list (cfg : Config) (recurse : Recurse)
    (textl : List String) (filename parent : String) (st : PState) :
    Except Err (List String) × PState :=
  if ¬ st.cyclic.is_cyclic filename then
    recurse textl filename st
  else if cfg.allow_circular_inclusion then
    (.ok textl, st)
  else
    (.error (.cyclicInclusion filename parent (st.cyclic.rootGet filename)), st)

/-- Method `get_recursive_content_list`: dispatch on the configured default
(`recursive`, truthy / `None` / falsy) and the per-directive toggle group
(`recurse_state`). -/
def get_recursive_content_list (cfg : Config) (recurse : Recurse)
    (textl : List String) (filename parent : String)
    (recursive : Option Bool) (recurse_state : Option String) (st : PState) :
    Except Err (List String) × PState :=
  match recursive with
  | some true =>
    if recurse_state ≠ some cfg.stx_recurs_off then
      mdx_include_get_cyclic_safe_processed_line_list cfg recurse textl filename parent st
    else (.ok textl, st)
  | none =>
    if recurse_state = some cfg.stx_recurs_on then
      mdx_include_get_cyclic_safe_processed_line_list cfg recurse textl filename parent st
    else (.ok textl, st)
  | some false => (.ok textl, st)

/-- Resolution of a local filename (lines 335–339 of the source): absolute
paths pass through; relative ones are joined to the parent's directory when
`recursive_relative_path` is set and a parent exists, else to `base_path`,
and normalized. -/
def resolveLocalFilename (cfg : Config) (parent filename : String) : String :=
  if isabs filename then filename
  else if cfg.recursive_relative_path ∧ parent ≠ "" then
    normpath (joinPath (dirname parent) filename)
  else
    normpath (joinPath cfg.base_path filename)

/-- Remote inclusion (lines 310–328 of the source): record the child–parent
edge, fetch through the remote cache wrapper, apply the line slice when a
`[ln:…]` group is present, and hand the lines to the recursion dispatcher;
the fetch status accompanies the final lines, and a raised error propagates
with the state at the raise. -/
def remoteInclude (cfg : Config) (env : Env) (recurse : Recurse)
    (parent filename encoding : String) (linesSpec recurse_state : Option String)
    (st : PState) : Except Err (List String × Bool) × PState :=
  let st1 := { st with cyclic := st.cyclic.add filename parent }
  let fetched := ipGetRemoteContentList cfg env filename encoding st1
  let textl := if linesSpec.getD "" ≠ "" then
      rowSliceSlice cfg.line_slice_separator fetched.1.1 (linesSpec.getD "")
    else fetched.1.1
  let r := get_recursive_content_list cfg recurse textl filename parent
      cfg.recurs_remote recurse_state fetched.2
  (r.1.map (fun textl => (textl, fetched.1.2)), r.2)

/-- Local inclusion (lines 341–356 of the source): local analogue of
`remoteInclude`, fetching through the local cache wrapper and dispatching
recursion on the local default. -/
def localInclude (cfg : Config) (env : Env) (recurse : Recurse)
    (parent filename encoding : String) (linesSpec recurse_state : Option String)
    (st : PState) : Except Err (List String × Bool) × PState :=
  let st1 := { st with cyclic := st.cyclic.add filename parent }
  let fetched := ipGetLocalContentList cfg env filename encoding st1
  let textl := if linesSpec.getD "" ≠ "" then
      rowSliceSlice cfg.line_slice_separator fetched.1.1 (linesSpec.getD "")
    else fetched.1.1
  let r := get_recursive_content_list cfg recurse textl filename parent
      cfg.recurs_local recurse_state fetched.2
  (r.1.map (fun textl => (textl, fetched.1.2)), r.2)

/-- Content computation for one regex match (lines 287–363 of the source):
the escaped branch yields the literal match minus its first character with
status `True`; otherwise the path is `expanduser`-ed, classified by netloc,
checked against `allow_remote` / `allow_local`, and processed by the
matching inclusion branch; a disallowed kind yields no lines and status
`False`. -/
def matchContent (cfg : Config) (env : Env) (recurse : Recurse)
    (parent : String) (m : RMatch) (st : PState) :
    Except Err (List String × Bool) × PState :=
  if m.escape then
    (.ok ([pyDrop m.total 1], true), st)
  else
    let filename := expanduser env.home m.path
    let encoding := if encoding_exists env m.encoding then m.encoding.getD "" else cfg.encoding
    if urlNetloc filename ≠ "" then
      if cfg.allow_remote then
        remoteInclude cfg env recurse parent (rstripSlashes (urlUnparseParse filename))
          encoding m.lines m.recursive st
      else
        (.ok ([], false), st)
    else if cfg.allow_local then
      localInclude cfg env recurse parent (resolveLocalFilename cfg parent filename)
        encoding m.lines m.recursive st
    else
      (.ok ([], false), st)

/-- Indent stripping (lines 374–379 of the source): with the marker present,
remove from every line the minimum leading-whitespace width of the
non-blank lines; `min` over no non-blank lines raises `ValueError`. -/
def stripIndentStep (strip_flag : String) (textl : List String) :
    Except Err (List String) :=
  if strip_flag ≠ "" then
    match (((textl.filter (fun item => !(isBlank item))).map leadingWs).min?) with
    | some n => .ok (textl.map (fun item => pyDrop item n))
    | none => .error .valueErrorMinEmpty
  else .ok textl

/-- Splicing of nonempty content at a match span (lines 381–389): with
accumulated output, join the preceding text and the first content line onto
the last output line and append the rest; with empty accumulated output,
either prefix every line (apply-indent) or only the first. -/
def spliceNonEmpty (line : String) (c s : Nat) (apply_flag : String)
    (textl resll : List String) : List String :=
  if resll ≠ [] then
    resll.dropLast ++ [resll.getLastD "" ++ pySlice line c s ++ textl.headD ""] ++ textl.tail
  else if apply_flag ≠ "" then
    textl.map (fun element => pySlice line c s ++ element)
  else
    (pySlice line c s ++ textl.headD "") :: textl.tail

/-- Body of the per-match loop (lines 286–393): compute the content, apply
the truncate-on-failure substitution, then either record the preceding text
alone (empty content) or strip-indent and splice; returns the grown output
buffer and the new current offset. -/
def processOneMatch (cfg : Config) (env : Env) (recurse : Recurse)
    (parent line : String) (c : Nat) (m : RMatch) (resll : List String)
    (st : PState) : Except Err (List String × Nat) × PState :=
  match matchContent cfg env recurse parent m st with
  | (.error er, st) => (.error er, st)
  | (.ok (textl, stat), st) =>
    let textl := if ¬ stat ∧ ¬ cfg.truncate_on_failure then [m.total] else textl
    if textl.isEmpty then
      (.ok (resll ++ [pySlice line c m.s], m.e), st)
    else
      match stripIndentStep m.strip_indent textl with
      | .error er => (.error er, st)
      | .ok textl => (.ok (spliceNonEmpty line c m.s m.apply_indent textl resll, m.e), st)

/-- Left-to-right fold of a line's matches, threading offset, buffer, state. -/
def processMatches (cfg : Config) (env : Env) (recurse : Recurse)
    (parent line : String) : List RMatch → Nat → List String → PState →
    Except Err (List String × Nat) × PState
  | [], c, resll, st => (.ok (resll, c), st)
  | m :: ms, c, resll, st =>
    match processOneMatch cfg env recurse parent line c m resll st with
    | (.error er, st) => (.error er, st)
    | (.ok (resll, c), st) => processMatches cfg env recurse parent line ms c resll st

/-- One line of the document: run the matches, then copy the rest of the
line onto the last output line (or as the only output line). -/
def processLine (cfg : Config) (env : Env) (recurse : Recurse)
    (fm : String → List RMatch) (parent line : String) (st : PState) :
    Except Err (List String) × PState :=
  match processMatches cfg env recurse parent line (fm line) 0 [] st with
  | (.error er, st) => (.error er, st)
  | (.ok (resll, c), st) =>
    (.ok (if resll.isEmpty then [pyDrop line c]
          else resll.dropLast ++ [resll.getLastD "" ++ pyDrop line c]), st)

/-- The per-document loop of `mdx_include_get_processed_lines`. -/
def processLinesAux (cfg : Config) (env : Env) (recurse : Recurse)
    (fm : String → List RMatch) (parent : String) : List String → PState →
    Except Err (List String) × PState
  | [], st => (.ok [], st)
  | line :: rest, st =>
    match processLine cfg env recurse fm parent line st with
    | (.error er, st) => (.error er, st)
    | (.ok resll, st) =>
      match processLinesAux cfg env recurse fm parent rest st with
      | (.error er, st) => (.error er, st)
      | (.ok more, st) => (.ok (resll ++ more), st)

/-- Method `mdx_include_get_processed_lines`, with a fuel bound on the
recursion depth of nested inclusions (the Python recursion is bounded only
by the call stack; any fixed document and environment is processed exactly
by every sufficiently large fuel). -/
def mdx_include_get_processed_lines (cfg : Config) (env : Env)
    (fm : String → List RMatch) : Nat → List String → String → PState →
    Except Err (List String) × PState
  | 0, _, _, st => (.error .outOfFuel, st)
  | fuel + 1, lines, parent, st =>
    processLinesAux cfg env
      (fun textl filename st => mdx_include_get_processed_lines cfg env fm fuel textl filename st)
      fm parent lines st

/-- Method `run`: fresh cycle tracker, process with empty parent, then apply
the cache-clean flags — only on normal return, since a raise propagates. -/
def run (cfg : Config) (env : Env) (fm : String → List RMatch) (fuel : Nat)
    (lines : List String) (st : PState) : Except Err (List String) × PState :=
  let st := { st with cyclic := ⟨[]⟩ }
  match mdx_include_get_processed_lines cfg env fm fuel lines "" st with
  | (.error er, st) => (.error er, st)
  | (.ok new_lines, st) =>
    let st := if cfg.content_cache_clean_local then { st with cacheLocal := [] } else st
    let st := if cfg.content_cache_clean_remote then { st with cacheRemote := [] } else st
    (.ok new_lines, st)

/-! ## Shared concrete instances -/

/-- Configuration built from the defaults of the source's config dictionary. -/
def cfg0 : Config :=
  { base_path := ".", encoding := "utf-8", allow_local := true, allow_remote := true,
    truncate_on_failure := true, recurs_local := some true, recurs_remote := some false,
    stx_recurs_on := "+", stx_recurs_off := "-",
    content_cache_local := true, content_cache_remote := true,
    content_cache_clean_local := false, content_cache_clean_remote := false,
    allow_circular_inclusion := false, line_slice_separator := ["", ""],
    recursive_relative_path := false }

/-- Fresh preprocessor state: empty caches, empty tracker, no calls logged. -/
def pstEmpty : PState := ⟨[], [], ⟨[]⟩, [], []⟩

/-- Environment in which every retrieval fails. -/
def envNone : Env :=
  { readLocal := fun _ _ => none, readRemote := fun _ _ => none,
    home := "/home/u", encodings := [] }

/-- Recursive re-entry that returns its input unchanged. -/
def recId : Recurse := fun textl _ st => (.ok textl, st)

/-! ## Basic lemmas -/

theorem pyDrop_zero (s : String) : pyDrop s 0 = s := by
  cases s
  rfl

theorem lookup_cons (k f : String) (v : List String) (l : List (String × List String)) :
    ((f, v) :: l).lookup k = if k = f then some v else l.lookup k := by
  by_cases h : k = f
  · simp [List.lookup, h]
  · have hb : (k == f) = false := beq_eq_false_iff_ne.mpr h
    simp [List.lookup, hb, h]

/-! ## State-evolution invariant

Across any amount of processing, cache entries are only ever added, and
every added entry is verbatim the (successful) output of the module-level
retrieval function for its key — never sliced, never recursively expanded. -/

/-- The value is a successful raw local retrieval for the key, under some encoding. -/
def rawLocal (env : Env) (k : String) (v : List String) : Prop :=
  ∃ enc, get_local_content_list env k enc = (v, true)

/-- The value is a successful raw remote retrieval for the key, under some encoding. -/
def rawRemote (env : Env) (k : String) (v : List String) : Prop :=
  ∃ enc, get_remote_content_list env k enc = (v, true)

/-- Relation between a state and any later state of the same run: both caches
grow monotonically, and every new entry is a raw retrieval output. -/
def StEvol (env : Env) (st st' : PState) : Prop :=
  (∀ k v, st.cacheLocal.lookup k = some v → st'.cacheLocal.lookup k = some v) ∧
  (∀ k v, st.cacheRemote.lookup k = some v → st'.cacheRemote.lookup k = some v) ∧
  (∀ k v, st'.cacheLocal.lookup k = some v → st.cacheLocal.lookup k = some v ∨ rawLocal env k v) ∧
  (∀ k v, st'.cacheRemote.lookup k = some v → st.cacheRemote.lookup k = some v ∨ rawRemote env k v)

theorem stEvol_refl (env : Env) (st : PState) : StEvol env st st :=
  ⟨fun _ _ h => h, fun _ _ h => h, fun _ _ h => .inl h, fun _ _ h => .inl h⟩

theorem stEvol_trans {env : Env} {s1 s2 s3 : PState}
    (h1 : StEvol env s1 s2) (h2 : StEvol env s2 s3) : StEvol env s1 s3 := by
  obtain ⟨a1, b1, c1, d1⟩ := h1
  obtain ⟨a2, b2, c2, d2⟩ := h2
  refine ⟨fun k v h => a2 _ _ (a1 _ _ h), fun k v h => b2 _ _ (b1 _ _ h),
    fun k v h => ?_, fun k v h => ?_⟩
  · rcases c2 _ _ h with h' | h'
    · exact c1 _ _ h'
    · exact .inr h'
  · rcases d2 _ _ h with h' | h'
    · exact d1 _ _ h'
    · exact .inr h'

theorem stEvol_of_caches_eq {env : Env} {st st' : PState}
    (hl : st.cacheLocal = st'.cacheLocal) (hr : st.cacheRemote = st'.cacheRemote) :
    StEvol env st st' :=
  ⟨fun k v h => by rw [← hl]; exact h, fun k v h => by rw [← hr]; exact h,
   fun k v h => .inl (by rw [hl]; exact h), fun k v h => .inl (by rw [hr]; exact h)⟩

theorem evol_ipGetLocalContentList (cfg : Config) (env : Env) (f e : String) (st : PState) :
    StEvol env st (ipGetLocalContentList cfg env f e st).2 := by
  simp only [ipGetLocalContentList]
  split
  · exact stEvol_refl env st
  · rename_i hmiss
    split
    · rename_i hstore
      refine ⟨fun k v h => ?_, fun _ _ h => h, fun k v h => ?_, fun _ _ h => .inl h⟩
      · have hk : k ≠ f := by
          intro hkf
          subst hkf
          have : (st.cacheLocal.lookup k).isSome := by rw [h]; rfl
          exact hmiss ⟨hstore.2, this⟩
        simpa [lookup_cons, hk] using h
      · rw [show ((f, (get_local_content_list env f e).1) ::
            st.cacheLocal).lookup k = _ from lookup_cons k f _ _] at h
        split at h
        · rename_i hkf
          refine .inr ⟨e, ?_⟩
          have hv : (get_local_content_list env f e).1 = v := by injection h
          have hs : (get_local_content_list env f e).2 = true := hstore.1
          subst hkf
          calc get_local_content_list env k e
              = ((get_local_content_list env k e).1, (get_local_content_list env k e).2) := rfl
            _ = (v, true) := by rw [hv, hs]
        · exact .inl h
    · exact stEvol_of_caches_eq rfl rfl

theorem evol_ipGetRemoteContentList (cfg : Config) (env : Env) (f e : String) (st : PState) :
    StEvol env st (ipGetRemoteContentList cfg env f e st).2 := by
  simp only [ipGetRemoteContentList]
  split
  · exact stEvol_refl env st
  · rename_i hmiss
    split
    · rename_i hstore
      refine ⟨fun _ _ h => h, fun k v h => ?_, fun _ _ h => .inl h, fun k v h => ?_⟩
      · have hk : k ≠ f := by
          intro hkf
          subst hkf
          have : (st.cacheRemote.lookup k).isSome := by rw [h]; rfl
          exact hmiss ⟨hstore.2, this⟩
        simpa [lookup_cons, hk] using h
      · rw [show ((f, (get_remote_content_list env f e).1) ::
            st.cacheRemote).lookup k = _ from lookup_cons k f _ _] at h
        split at h
        · rename_i hkf
          refine .inr ⟨e, ?_⟩
          have hv : (get_remote_content_list env f e).1 = v := by injection h
          have hs : (get_remote_content_list env f e).2 = true := hstore.1
          subst hkf
          calc get_remote_content_list env k e
              = ((get_remote_content_list env k e).1, (get_remote_content_list env k e).2) := rfl
            _ = (v, true) := by rw [hv, hs]
        · exact .inl h
    · exact stEvol_of_caches_eq rfl rfl

theorem evol_cyclicSafe (cfg : Config) (env : Env) (recurse : Recurse)
    (textl : List String) (filename parent : String) (st : PState)
    (hrec : ∀ t f s, StEvol env s (recurse t f s).2) :
    StEvol env st
      (mdx_include_get_cyclic_safe_processed_line_list cfg recurse textl filename parent st).2 := by
  simp only [mdx_include_get_cyclic_safe_processed_line_list]
  split
  · exact hrec _ _ _
  · split
    · exact stEvol_refl env st
    · exact stEvol_refl env st

theorem evol_getRecursiveContentList (cfg : Config) (env : Env) (recurse : Recurse)
    (textl : List String) (filename parent : String)
    (recursive : Option Bool) (recurse_state : Option String) (st : PState)
    (hrec : ∀ t f s, StEvol env s (recurse t f s).2) :
    StEvol env st
      (get_recursive_content_list cfg recurse textl filename parent recursive recurse_state st).2 := by
  rcases recursive with _ | b
  · simp only [get_recursive_content_list]
    split
    · exact evol_cyclicSafe cfg env recurse textl filename parent st hrec
    · exact stEvol_refl env st
  · cases b
    · exact stEvol_refl env st
    · simp only [get_recursive_content_list]
      split
      · exact evol_cyclicSafe cfg env recurse textl filename parent st hrec
      · exact stEvol_refl env st

theorem evol_remoteInclude (cfg : Config) (env : Env) (recurse : Recurse)
    (parent filename encoding : String) (linesSpec recurse_state : Option String)
    (st : PState) (hrec : ∀ t f s, StEvol env s (recurse t f s).2) :
    StEvol env st
      (remoteInclude cfg env recurse parent filename encoding linesSpec recurse_state st).2 := by
  have e1 : StEvol env st { st with cyclic := st.cyclic.add filename parent } :=
    stEvol_of_caches_eq rfl rfl
  have e2 := evol_ipGetRemoteContentList cfg env filename encoding
    { st with cyclic := st.cyclic.add filename parent }
  have e3 := evol_getRecursiveContentList cfg env recurse
    (if linesSpec.getD "" ≠ "" then
      rowSliceSlice cfg.line_slice_separator
        (ipGetRemoteContentList cfg env filename encoding
          { st with cyclic := st.cyclic.add filename parent }).1.1 (linesSpec.getD "")
    else (ipGetRemoteContentList cfg env filename encoding
          { st with cyclic := st.cyclic.add filename parent }).1.1)
    filename parent cfg.recurs_remote recurse_state
    (ipGetRemoteContentList cfg env filename encoding
      { st with cyclic := st.cyclic.add filename parent }).2 hrec
  exact stEvol_trans e1 (stEvol_trans e2 e3)

theorem evol_localInclude (cfg : Config) (env : Env) (recurse : Recurse)
    (parent filename encoding : String) (linesSpec recurse_state : Option String)
    (st : PState) (hrec : ∀ t f s, StEvol env s (recurse t f s).2) :
    StEvol env st
      (localInclude cfg env recurse parent filename encoding linesSpec recurse_state st).2 := by
  have e1 : StEvol env st { st with cyclic := st.cyclic.add filename parent } :=
    stEvol_of_caches_eq rfl rfl
  have e2 := evol_ipGetLocalContentList cfg env filename encoding
    { st with cyclic := st.cyclic.add filename parent }
  have e3 := evol_getRecursiveContentList cfg env recurse
    (if linesSpec.getD "" ≠ "" then
      rowSliceSlice cfg.line_slice_separator
        (ipGetLocalContentList cfg env filename encoding
          { st with cyclic := st.cyclic.add filename parent }).1.1 (linesSpec.getD "")
    else (ipGetLocalContentList cfg env filename encoding
          { st with cyclic := st.cyclic.add filename parent }).1.1)
    filename parent cfg.recurs_local recurse_state
    (ipGetLocalContentList cfg env filename encoding
      { st with cyclic := st.cyclic.add filename parent }).2 hrec
  exact stEvol_trans e1 (stEvol_trans e2 e3)

theorem evol_matchContent (cfg : Config) (env : Env) (recurse : Recurse)
    (parent : String) (m : RMatch) (st : PState)
    (hrec : ∀ t f s, StEvol env s (recurse t f s).2) :
    StEvol env st (matchContent cfg env recurse parent m st).2 := by
  simp only [matchContent]
  split
  · exact stEvol_refl env st
  · split
    · split
      · exact evol_remoteInclude cfg env recurse parent _ _ _ _ st hrec
      · exact stEvol_refl env st
    · split
      · exact evol_localInclude cfg env recurse parent _ _ _ _ st hrec
      · exact stEvol_refl env st

theorem evol_processOneMatch (cfg : Config) (env : Env) (recurse : Recurse)
    (parent line : String) (c : Nat) (m : RMatch) (resll : List String) (st : PState)
    (hrec : ∀ t f s, StEvol env s (recurse t f s).2) :
    StEvol env st (processOneMatch cfg env recurse parent line c m resll st).2 := by
  simp only [processOneMatch]
  have h := evol_matchContent cfg env recurse parent m st hrec
  split
  · rename_i heq
    have : (matchContent cfg env recurse parent m st).2 = _ := congrArg Prod.snd heq
    rw [this] at h
    exact h
  · rename_i textl stat st' heq
    have h2 : (matchContent cfg env recurse parent m st).2 = st' := congrArg Prod.snd heq
    rw [h2] at h
    split
    · split
      · exact h
      · split <;> exact h
    · split
      · exact h
      · split <;> exact h

theorem evol_processMatches (cfg : Config) (env : Env) (recurse : Recurse)
    (parent line : String) (ms : List RMatch) (c : Nat) (resll : List String) (st : PState)
    (hrec : ∀ t f s, StEvol env s (recurse t f s).2) :
    StEvol env st (processMatches cfg env recurse parent line ms c resll st).2 := by
  induction ms generalizing c resll st with
  | nil => exact stEvol_refl env st
  | cons m ms ih =>
    simp only [processMatches]
    have h1 := evol_processOneMatch cfg env recurse parent line c m resll st hrec
    split
    · rename_i heq
      have : (processOneMatch cfg env recurse parent line c m resll st).2 = _ :=
        congrArg Prod.snd heq
      rw [this] at h1
      exact h1
    · rename_i resll' c' st' heq
      have h2 : (processOneMatch cfg env recurse parent line c m resll st).2 = st' :=
        congrArg Prod.snd heq
      rw [h2] at h1
      exact stEvol_trans h1 (ih c' resll' st')

theorem evol_processLine (cfg : Config) (env : Env) (recurse : Recurse)
    (fm : String → List RMatch) (parent line : String) (st : PState)
    (hrec : ∀ t f s, StEvol env s (recurse t f s).2) :
    StEvol env st (processLine cfg env recurse fm parent line st).2 := by
  simp only [processLine]
  have h := evol_processMatches cfg env recurse parent line (fm line) 0 [] st hrec
  split
  · rename_i heq
    have : (processMatches cfg env recurse parent line (fm line) 0 [] st).2 = _ :=
      congrArg Prod.snd heq
    rw [this] at h
    exact h
  · rename_i resll c st' heq
    have h2 : (processMatches cfg env recurse parent line (fm line) 0 [] st).2 = st' :=
      congrArg Prod.snd heq
    rw [h2] at h
    exact h

theorem evol_processLinesAux (cfg : Config) (env : Env) (recurse : Recurse)
    (fm : String → List RMatch) (parent : String) (lines : List String) (st : PState)
    (hrec : ∀ t f s, StEvol env s (recurse t f s).2) :
    StEvol env st (processLinesAux cfg env recurse fm parent lines st).2 := by
  induction lines generalizing st with
  | nil => exact stEvol_refl env st
  | cons line rest ih =>
    simp only [processLinesAux]
    have h1 := evol_processLine cfg env recurse fm parent line st hrec
    split
    · rename_i heq
      have : (processLine cfg env recurse fm parent line st).2 = _ := congrArg Prod.snd heq
      rw [this] at h1
      exact h1
    · rename_i resll st' heq
      have h2 : (processLine cfg env recurse fm parent line st).2 = st' := congrArg Prod.snd heq
      rw [h2] at h1
      have h3 := ih st'
      split
      · rename_i heq2
        have : (processLinesAux cfg env recurse fm parent rest st').2 = _ :=
          congrArg Prod.snd heq2
        rw [this] at h3
        exact stEvol_trans h1 h3
      · rename_i more st'' heq2
        have h4 : (processLinesAux cfg env recurse fm parent rest st').2 = st'' :=
          congrArg Prod.snd heq2
        rw [h4] at h3
        exact stEvol_trans h1 h3

theorem evol_processedLines (cfg : Config) (env : Env) (fm : String → List RMatch)
    (fuel : Nat) (lines : List String) (parent : String) (st : PState) :
    StEvol env st (mdx_include_get_processed_lines cfg env fm fuel lines parent st).2 := by
  induction fuel generalizing lines parent st with
  | zero => exact stEvol_refl env st
  | succ fuel ih =>
    simp only [mdx_include_get_processed_lines]
    exact evol_processLinesAux cfg env _ fm parent lines st (fun t f s => ih t f s)

/-! ## Further helper lemmas -/

theorem stripIndentStep_single (flag x : String)
    (h1 : leadingWs x = 0) (h2 : isBlank x = false) :
    stripIndentStep flag [x] = .ok [x] := by
  by_cases hf : flag = ""
  · simp [stripIndentStep, hf]
  · simp [stripIndentStep, hf, h2, List.min?, h1, pyDrop_zero]

/-! ## Claim C1 -/

/-- Declarative effective-recursion decision, written from the amended
claim's words: a truthy configured default recurses unless the directive
carries the off-toggle; a `None` (neutral) default recurses only when the
directive carries the on-toggle; a falsy default never recurses, whatever
the toggle. -/
def effectiveRecursion (recursive : Option Bool) (recurse_state : Option String)
    (onC offC : String) : Bool :=
  match recursive with
  | some true => if recurse_state = some offC then false else true
  | none => if recurse_state = some onC then true else false
  | some false => false

/-- C1 (amended): the recursion decision of `get_recursive_content_list` is
exactly `effectiveRecursion`: with the configured default truthy, the
directive's off-toggle (and only it) disables recursion; with the default
`None`, the on-toggle (and only it) enables it; with the default falsy, the
content is never recursively expanded — the explicit toggle does not
override a falsy default. -/
theorem C1_effective_recursion_characterization (cfg : Config) (recurse : Recurse)
    (textl : List String) (filename parent : String)
    (recursive : Option Bool) (recurse_state : Option String) (st : PState) :
    get_recursive_content_list cfg recurse textl filename parent recursive recurse_state st =
      if effectiveRecursion recursive recurse_state cfg.stx_recurs_on cfg.stx_recurs_off then
        mdx_include_get_cyclic_safe_processed_line_list cfg recurse textl filename parent st
      else (.ok textl, st) := by
  rcases recursive with _ | b
  · simp only [get_recursive_content_list, effectiveRecursion]
    by_cases h : recurse_state = some cfg.stx_recurs_on
    · simp [h]
    · simp [h]
  · cases b
    · simp [get_recursive_content_list, effectiveRecursion]
    · simp only [get_recursive_content_list, effectiveRecursion]
      by_cases h : recurse_state = some cfg.stx_recurs_off
      · simp [h]
      · simp [h]

/-- Recursive re-entry observably distinct from the identity. -/
def recC1 : Recurse := fun _ _ st => (.ok ["RECURSED"], st)

/-- C1 (counterexample): with the configured default recursion for the
target's kind falsy (the source's own default for remote targets) and the
directive carrying the explicit on-toggle, the content comes back
unexpanded, although expansion was available and would have produced
different lines — so the explicit toggle does not override the configured
default, contradicting the claim. -/
theorem C1_counterexample :
    cfg0.recurs_remote = some false
    ∧ get_recursive_content_list cfg0 recC1 ["x"] "f" "" cfg0.recurs_remote
        (some cfg0.stx_recurs_on) pstEmpty = (.ok ["x"], pstEmpty)
    ∧ mdx_include_get_cyclic_safe_processed_line_list cfg0 recC1 ["x"] "f" "" pstEmpty
        = (.ok ["RECURSED"], pstEmpty) :=
  ⟨rfl, rfl, rfl⟩

/-! ## Claim C2 -/

def mC2A : RMatch := ⟨false, none, "", "", "A", none, none, "\x7b!A!\x7d", 0, 5⟩

def mC2B : RMatch := ⟨false, none, "", "", "B", none, none, "\x7b!B!\x7d", 0, 5⟩

/-- Match finder for the two-file cycle scenario. -/
def fmC2 : String → List RMatch := fun line =>
  if line = "\x7b!A!\x7d" then [mC2A] else if line = "\x7b!B!\x7d" then [mC2B] else []

/-- Environment where file `A` includes `B` and file `B` includes `A`. -/
def envC2 : Env :=
  { readLocal := fun f _ =>
      if f = "A" then some "\x7b!B!\x7d" else if f = "B" then some "\x7b!A!\x7d" else none,
    readRemote := fun _ _ => none, home := "/home/u", encodings := ["utf_8"] }

/-- State in which `"A"` is recorded among its own ancestors. -/
def pstC2cyc : PState := { pstEmpty with cyclic := ⟨[("A", ["B", "A"])]⟩ }

/-- C2: when an inclusion with effective recursion reaches a key recorded in
its own ancestor chain, the processing either raises an error carrying the
key, the parent and the ancestor chain (circular inclusion disallowed) or
keeps the fetched lines unexpanded (allowed); and concretely, on the
document `A` → `B` → `A`, the run fails naming `A`, its finder `B` and the
ancestor chain when disallowed, while with circular inclusion allowed the
second encounter of `A` substitutes `A`'s raw content non-recursively and
the run completes. -/
theorem C2_cyclic_inclusion_behaviour :
    (∀ (cfg : Config) (recurse : Recurse) (textl : List String)
       (filename parent : String) (st : PState),
      st.cyclic.is_cyclic filename = true →
      mdx_include_get_cyclic_safe_processed_line_list cfg recurse textl filename parent st =
        if cfg.allow_circular_inclusion then (.ok textl, st)
        else (.error (.cyclicInclusion filename parent (st.cyclic.rootGet filename)), st))
    ∧ (run cfg0 envC2 fmC2 4 ["\x7b!A!\x7d"] pstEmpty).1 =
        .error (.cyclicInclusion "A" "B" ["", "", "A", "B"])
    ∧ (run { cfg0 with allow_circular_inclusion := true } envC2 fmC2 4
        ["\x7b!A!\x7d"] pstEmpty).1 = .ok ["\x7b!B!\x7d"] := by
  refine ⟨?_, by decide, by decide⟩
  intro cfg recurse textl filename parent st h
  simp only [mdx_include_get_cyclic_safe_processed_line_list, h]
  by_cases hc : cfg.allow_circular_inclusion
  · simp [hc]
  · simp [hc]

/-- Witness instantiating C2's universal part at a concrete cyclic state. -/
theorem C2_cyclic_inclusion_behaviour_witness :
    pstC2cyc.cyclic.is_cyclic "A" = true ∧
    mdx_include_get_cyclic_safe_processed_line_list cfg0 recId ["t"] "A" "B" pstC2cyc =
      (.error (.cyclicInclusion "A" "B" ["B", "A"]), pstC2cyc) := by
  refine ⟨by decide, ?_⟩
  have h := C2_cyclic_inclusion_behaviour.1 cfg0 recId ["t"] "A" "B" pstC2cyc (by decide)
  exact h.trans (by decide)

/-! ## Claim C3 -/

def mC3 : RMatch := ⟨true, none, "<", ">", "x", none, none, "\\\x7b!x!\x7d", 2, 8⟩

/-- C3: an escaped match substitutes exactly the matched directive text with
its leading escape character removed — whatever the path — and leaves the
whole state untouched: no retrieval-capability invocation, no cache write,
no cycle-tracker update; and its result does not read any state component.
The two side hypotheses record regex facts about the matched text: with the
escape character removed it starts with the left delimiter, hence has no
leading whitespace and is not blank. -/
theorem C3_escaped_literal (cfg : Config) (env : Env) (recurse : Recurse)
    (parent line : String) (c : Nat) (m : RMatch) (resll : List String) (st : PState)
    (hesc : m.escape = true)
    (h1 : leadingWs (pyDrop m.total 1) = 0)
    (h2 : isBlank (pyDrop m.total 1) = false) :
    processOneMatch cfg env recurse parent line c m resll st =
      (.ok (spliceNonEmpty line c m.s m.apply_indent [pyDrop m.total 1] resll, m.e), st) := by
  simp only [processOneMatch, matchContent, hesc, if_true]
  simp [stripIndentStep_single m.strip_indent (pyDrop m.total 1) h1 h2]

/-- Witness for C3 at a concrete escaped directive. -/
theorem C3_escaped_literal_witness :
    mC3.escape = true
    ∧ leadingWs (pyDrop mC3.total 1) = 0
    ∧ isBlank (pyDrop mC3.total 1) = false
    ∧ processOneMatch cfg0 envNone recId "" "ab\\\x7b!x!\x7dcd" 0 mC3 [] pstEmpty =
        (.ok (spliceNonEmpty "ab\\\x7b!x!\x7dcd" 0 mC3.s mC3.apply_indent
          [pyDrop mC3.total 1] [], mC3.e), pstEmpty) :=
  ⟨rfl, by decide, by decide,
    C3_escaped_literal cfg0 envNone recId "" "ab\\\x7b!x!\x7dcd" 0 mC3 [] pstEmpty
      rfl (by decide) (by decide)⟩

/-! ## Claim C4 -/

/-- Baseline configuration with local recursion disabled, so that scenario
traces stay at one inclusion level. -/
def cfgNoRec : Config := { cfg0 with recurs_local := some false }

def mC4 : RMatch := ⟨false, none, "", "", "A", none, none, "\x7b!A!\x7d", 0, 5⟩

def fmC4 : String → List RMatch := fun line => if line = "\x7b!A!\x7d" then [mC4] else []

/-- C4 (counterexample): with caching enabled, two directives resolving to
the same key whose retrieval fails invoke the retrieval capability twice —
a failed retrieval is not cached — contradicting the unconditional "at most
once". -/
theorem C4_counterexample :
    cfgNoRec.content_cache_local = true
    ∧ (mdx_include_get_processed_lines cfgNoRec envNone fmC4 2
        ["\x7b!A!\x7d", "\x7b!A!\x7d"] "" pstEmpty).2.localCalls = ["A", "A"] :=
  ⟨rfl, by decide⟩

/-- C4 (amended): per kind, with caching enabled a cache hit serves the
lines without touching the state or the retrieval capability, and any
successful wrapper call leaves the key cached — hence the capability is
invoked at most once per key as long as retrieval succeeds, a failed
retrieval being retried by each directive; with caching disabled every
wrapper call invokes the capability exactly once. -/
theorem C4_caching_amended :
    (∀ (cfg : Config) (env : Env) (f e : String) (st : PState),
      cfg.content_cache_local = true → (st.cacheLocal.lookup f).isSome = true →
      ipGetLocalContentList cfg env f e st = (((st.cacheLocal.lookup f).getD [], true), st))
    ∧ (∀ (cfg : Config) (env : Env) (f e : String) (st : PState),
      cfg.content_cache_local = true → (ipGetLocalContentList cfg env f e st).1.2 = true →
      ((ipGetLocalContentList cfg env f e st).2.cacheLocal.lookup f).isSome = true)
    ∧ (∀ (cfg : Config) (env : Env) (f e : String) (st : PState),
      cfg.content_cache_local = false →
      (ipGetLocalContentList cfg env f e st).2.localCalls = st.localCalls ++ [f])
    ∧ (∀ (cfg : Config) (env : Env) (f e : String) (st : PState),
      cfg.content_cache_remote = true → (st.cacheRemote.lookup f).isSome = true →
      ipGetRemoteContentList cfg env f e st = (((st.cacheRemote.lookup f).getD [], true), st))
    ∧ (∀ (cfg : Config) (env : Env) (f e : String) (st : PState),
      cfg.content_cache_remote = true → (ipGetRemoteContentList cfg env f e st).1.2 = true →
      ((ipGetRemoteContentList cfg env f e st).2.cacheRemote.lookup f).isSome = true)
    ∧ (∀ (cfg : Config) (env : Env) (f e : String) (st : PState),
      cfg.content_cache_remote = false →
      (ipGetRemoteContentList cfg env f e st).2.remoteCalls = st.remoteCalls ++ [f]) := by
  refine ⟨?_, ?_, ?_, ?_, ?_, ?_⟩
  · intro cfg env f e st h1 h2
    simp [ipGetLocalContentList, h1, h2]
  · intro cfg env f e st h1 h2
    by_cases hs : (st.cacheLocal.lookup f).isSome = true
    · simp [ipGetLocalContentList, h1, hs]
    · have hs' : (st.cacheLocal.lookup f).isSome = false := by
        simp only [Bool.not_eq_true] at hs
        exact hs
      simp only [ipGetLocalContentList, h1, hs'] at h2 ⊢
      by_cases hp : (get_local_content_list env f e).2 = true
      · simp [hp, lookup_cons]
      · have hp' : (get_local_content_list env f e).2 = false := by
          simp only [Bool.not_eq_true] at hp
          exact hp
        simp [hp'] at h2
  · intro cfg env f e st h1
    simp [ipGetLocalContentList, h1]
  · intro cfg env f e st h1 h2
    simp [ipGetRemoteContentList, h1, h2]
  · intro cfg env f e st h1 h2
    by_cases hs : (st.cacheRemote.lookup f).isSome = true
    · simp [ipGetRemoteContentList, h1, hs]
    · have hs' : (st.cacheRemote.lookup f).isSome = false := by
        simp only [Bool.not_eq_true] at hs
        exact hs
      simp only [ipGetRemoteContentList, h1, hs'] at h2 ⊢
      by_cases hp : (get_remote_content_list env f e).2 = true
      · simp [hp, lookup_cons]
      · have hp' : (get_remote_content_list env f e).2 = false := by
          simp only [Bool.not_eq_true] at hp
          exact hp
        simp [hp'] at h2
  · intro cfg env f e st h1
    simp [ipGetRemoteContentList, h1]

/-- State holding one local cache entry for key `"k"`. -/
def stC4W : PState := { pstEmpty with cacheLocal := [("k", ["v"])] }

/-- Witness for C4's amended statement: a cache hit served untouched. -/
theorem C4_caching_amended_witness :
    cfg0.content_cache_local = true
    ∧ (stC4W.cacheLocal.lookup "k").isSome = true
    ∧ ipGetLocalContentList cfg0 envNone "k" "utf-8" stC4W =
        (((stC4W.cacheLocal.lookup "k").getD [], true), stC4W) :=
  ⟨rfl, by decide, C4_caching_amended.1 cfg0 envNone "k" "utf-8" stC4W rfl (by decide)⟩

/-! ## Claim C5 -/

def mC5 : RMatch := ⟨false, none, "", "", "A", some "1", none, "\x7b!A [ln:1]!\x7d", 0, 12⟩

def fmC5 : String → List RMatch := fun line =>
  if line = "\x7b!A [ln:1]!\x7d" then [mC5] else []

/-- Environment where file `A` has the two lines `l1`, `l2`. -/
def envC5 : Env :=
  { readLocal := fun f _ => if f = "A" then some "l1\nl2" else none,
    readRemote := fun _ _ => none, home := "/home/u", encodings := [] }

/-- C5 (counterexample): processing a ranged directive over a two-line file
caches both raw lines while the substituted output is the one sliced line —
the cache entry is not the range-sliced sequence the claim asserts. -/
theorem C5_counterexample :
    (mdx_include_get_processed_lines cfgNoRec envC5 fmC5 2
        ["\x7b!A [ln:1]!\x7d"] "" pstEmpty).2.cacheLocal.lookup "A" = some ["l1", "l2"]
    ∧ rowSliceSlice cfgNoRec.line_slice_separator ["l1", "l2"] "1" = ["l1"]
    ∧ (mdx_include_get_processed_lines cfgNoRec envC5 fmC5 2
        ["\x7b!A [ln:1]!\x7d"] "" pstEmpty).1 = .ok ["l1"]
    ∧ (["l1", "l2"] : List String) ≠ ["l1"] :=
  ⟨by decide, by decide, by decide, by decide⟩

/-- C5 (amended): a cache miss whose retrieval succeeds stores, under the
resolved key, exactly the raw line sequence the module-level retrieval
returned — before any range slicing — and globally, any entry of either
cache after any amount of processing is either a pre-existing entry or
verbatim such a raw retrieval output, so neither sliced lines nor
recursive-expansion results are ever cached. -/
theorem C5_cache_stores_raw :
    (∀ (cfg : Config) (env : Env) (f e : String) (st : PState),
      cfg.content_cache_local = true → st.cacheLocal.lookup f = none →
      (get_local_content_list env f e).2 = true →
      (ipGetLocalContentList cfg env f e st).2.cacheLocal =
        (f, (get_local_content_list env f e).1) :: st.cacheLocal)
    ∧ (∀ (cfg : Config) (env : Env) (f e : String) (st : PState),
      cfg.content_cache_remote = true → st.cacheRemote.lookup f = none →
      (get_remote_content_list env f e).2 = true →
      (ipGetRemoteContentList cfg env f e st).2.cacheRemote =
        (f, (get_remote_content_list env f e).1) :: st.cacheRemote)
    ∧ (∀ (cfg : Config) (env : Env) (fm : String → List RMatch) (fuel : Nat)
        (lines : List String) (parent : String) (st : PState) (k : String) (v : List String),
      (mdx_include_get_processed_lines cfg env fm fuel lines parent st).2.cacheLocal.lookup k
          = some v →
      st.cacheLocal.lookup k = some v ∨ rawLocal env k v)
    ∧ (∀ (cfg : Config) (env : Env) (fm : String → List RMatch) (fuel : Nat)
        (lines : List String) (parent : String) (st : PState) (k : String) (v : List String),
      (mdx_include_get_processed_lines cfg env fm fuel lines parent st).2.cacheRemote.lookup k
          = some v →
      st.cacheRemote.lookup k = some v ∨ rawRemote env k v) := by
  refine ⟨?_, ?_, ?_, ?_⟩
  · intro cfg env f e st h1 h2 h3
    simp [ipGetLocalContentList, h1, h2, h3]
  · intro cfg env f e st h1 h2 h3
    simp [ipGetRemoteContentList, h1, h2, h3]
  · intro cfg env fm fuel lines parent st k v h
    exact (evol_processedLines cfg env fm fuel lines parent st).2.2.1 k v h
  · intro cfg env fm fuel lines parent st k v h
    exact (evol_processedLines cfg env fm fuel lines parent st).2.2.2 k v h

/-- Environment where the file `k` holds the text `data`. -/
def envC5W : Env :=
  { readLocal := fun f _ => if f = "k" then some "data" else none,
    readRemote := fun _ _ => none, home := "/home/u", encodings := [] }

/-- Witness for C5's amended statement at a concrete successful miss. -/
theorem C5_cache_stores_raw_witness :
    cfg0.content_cache_local = true
    ∧ pstEmpty.cacheLocal.lookup "k" = none
    ∧ (get_local_content_list envC5W "k" "utf-8").2 = true
    ∧ (ipGetLocalContentList cfg0 envC5W "k" "utf-8" pstEmpty).2.cacheLocal =
        ("k", (get_local_content_list envC5W "k" "utf-8").1) :: pstEmpty.cacheLocal :=
  ⟨rfl, rfl, by decide,
    C5_cache_stores_raw.1 cfg0 envC5W "k" "utf-8" pstEmpty rfl rfl (by decide)⟩

/-! ## Claim C6 -/

/-- C6: when the content computation of a non-escaped match fails (empty
lines, status `False` — including the kind being disallowed), the match
substitutes nothing if `truncate_on_failure` is set, and substitutes the
full original matched text at the match span otherwise.  The side
hypotheses record the regex facts that the matched text starts with the
left delimiter. -/
theorem C6_truncate_behaviour (cfg : Config) (env : Env) (recurse : Recurse)
    (parent line : String) (c : Nat) (m : RMatch) (resll : List String) (st st' : PState)
    (hesc : m.escape = false)
    (hfail : matchContent cfg env recurse parent m st = (.ok ([], false), st'))
    (h1 : leadingWs m.total = 0) (h2 : isBlank m.total = false) :
    processOneMatch cfg env recurse parent line c m resll st =
      if cfg.truncate_on_failure then (.ok (resll ++ [pySlice line c m.s], m.e), st')
      else (.ok (spliceNonEmpty line c m.s m.apply_indent [m.total] resll, m.e), st') := by
  simp only [processOneMatch, hfail]
  by_cases ht : cfg.truncate_on_failure
  · simp [ht]
  · have ht' : cfg.truncate_on_failure = false := by
      simp only [Bool.not_eq_true] at ht
      exact ht
    simp [ht', stripIndentStep_single m.strip_indent m.total h1 h2]

/-- Configuration with both target kinds disallowed. -/
def cfgC6W : Config := { cfg0 with allow_local := false, allow_remote := false }

def mC6 : RMatch := ⟨false, none, "", "", "x", none, none, "\x7b!x!\x7d", 0, 5⟩

/-- Witness for C6 at a disallowed-kind failure with truncation on. -/
theorem C6_truncate_behaviour_witness :
    mC6.escape = false
    ∧ matchContent cfgC6W envNone recId "" mC6 pstEmpty = (.ok ([], false), pstEmpty)
    ∧ cfgC6W.truncate_on_failure = true
    ∧ processOneMatch cfgC6W envNone recId "" "\x7b!x!\x7d" 0 mC6 [] pstEmpty =
        if cfgC6W.truncate_on_failure then
          (.ok (([] : List String) ++ [pySlice "\x7b!x!\x7d" 0 mC6.s], mC6.e), pstEmpty)
        else (.ok (spliceNonEmpty "\x7b!x!\x7d" 0 mC6.s mC6.apply_indent [mC6.total] [],
          mC6.e), pstEmpty) :=
  ⟨rfl, by decide, rfl,
    C6_truncate_behaviour cfgC6W envNone recId "" "\x7b!x!\x7d" 0 mC6 [] pstEmpty pstEmpty
      rfl (by decide) (by decide) (by decide)⟩

/-! ## Claim C7 -/

/-- Line with two directive matches: an escaped one, then one carrying the
apply-indent marker, preceded by the one-character text `W`. -/
def lineC7 : String := "Z\\\x7b!x!\x7dW\x7b!>y!\x7d"

def mC7esc : RMatch := ⟨true, none, "", "", "x", none, none, "\\\x7b!x!\x7d", 1, 7⟩

def mC7app : RMatch := ⟨false, none, "", ">", "y", none, none, "\x7b!>y!\x7d", 8, 14⟩

def fmC7 : String → List RMatch := fun line =>
  if line = lineC7 then [mC7esc, mC7app] else []

/-- Environment where the file `y` has the two lines `p`, `q`. -/
def envC7 : Env :=
  { readLocal := fun f _ => if f = "y" then some "p\nq" else none,
    readRemote := fun _ _ => none, home := "/home/u", encodings := [] }

/-- C7 (counterexample): an apply-indent directive that is the second match
on its line inserts `p` joined after the preceding text `W` but leaves the
second content line `q` unprefixed — not every inserted line receives the
preceding text, contradicting the claim. -/
theorem C7_counterexample :
    mC7app.apply_indent ≠ ""
    ∧ (mdx_include_get_processed_lines cfgNoRec envC7 fmC7 2 [lineC7] "" pstEmpty).1 =
        .ok ["Z\x7b!x!\x7dWp", "q"]
    ∧ pySlice lineC7 7 mC7app.s = "W"
    ∧ ("q" : String) ≠ "W" ++ "q" :=
  ⟨by decide, by decide, by decide, by decide⟩

/-- C7 (amended): with nonempty resulting content, a match at which the
line's accumulated output buffer is still empty behaves as claimed — with
apply-indent every content line gets the preceding text, without it only
the first line does and the rest become unprefixed output lines; but for a
match with output already accumulated, the apply-indent flag is ignored:
the first content line is joined onto the last output line after the
preceding text and the remaining lines are appended unprefixed. -/
theorem C7_apply_indent_amended (cfg : Config) (env : Env) (recurse : Recurse)
    (parent line : String) (c : Nat) (m : RMatch) (resll : List String)
    (st st' : PState) (textl textl2 : List String)
    (hcontent : matchContent cfg env recurse parent m st = (.ok (textl, true), st'))
    (hne : textl ≠ [])
    (hstrip : stripIndentStep m.strip_indent textl = .ok textl2) :
    processOneMatch cfg env recurse parent line c m resll st =
      (.ok ((match resll with
        | [] =>
          if m.apply_indent ≠ "" then textl2.map (fun el => pySlice line c m.s ++ el)
          else (pySlice line c m.s ++ textl2.headD "") :: textl2.tail
        | _ :: _ =>
          resll.dropLast ++ [resll.getLastD "" ++ pySlice line c m.s ++ textl2.headD ""]
            ++ textl2.tail), m.e), st') := by
  simp only [processOneMatch, hcontent]
  rcases textl with _ | ⟨x, xs⟩
  · exact absurd rfl hne
  · rcases resll with _ | ⟨r, rs⟩ <;> simp [hstrip, spliceNonEmpty]

def mC7w : RMatch := ⟨true, none, "", "", "q", none, none, "\\\x7b!q!\x7d", 0, 6⟩

/-- Witness for C7's amended statement: a match with output already
accumulated joins its single content line onto the last output line. -/
theorem C7_apply_indent_amended_witness :
    matchContent cfg0 envNone recId "" mC7w pstEmpty =
      (.ok (["\x7b!q!\x7d"], true), pstEmpty)
    ∧ (["\x7b!q!\x7d"] : List String) ≠ []
    ∧ stripIndentStep mC7w.strip_indent ["\x7b!q!\x7d"] = .ok ["\x7b!q!\x7d"]
    ∧ processOneMatch cfg0 envNone recId "" "s\\\x7b!q!\x7d" 0 mC7w ["r"] pstEmpty =
        (.ok (["r"].dropLast ++ [["r"].getLastD "" ++ pySlice "s\\\x7b!q!\x7d" 0 mC7w.s ++
          (["\x7b!q!\x7d"] : List String).headD ""] ++ (["\x7b!q!\x7d"] : List String).tail,
          mC7w.e), pstEmpty) :=
  ⟨by decide, by decide, by decide,
    C7_apply_indent_amended cfg0 envNone recId "" "s\\\x7b!q!\x7d" 0 mC7w ["r"]
      pstEmpty pstEmpty ["\x7b!q!\x7d"] ["\x7b!q!\x7d"] (by decide) (by decide) (by decide)⟩

/-! ## Claim C8 -/

def mC8 : RMatch := ⟨false, none, "<", "", "E", none, none, "\x7b!<E!\x7d", 0, 6⟩

def fmC8 : String → List RMatch := fun line => if line = "\x7b!<E!\x7d" then [mC8] else []

/-- Environment where the file `E` exists and is empty, so its fetched line
list is the single blank line `[""]`. -/
def envC8 : Env :=
  { readLocal := fun f _ => if f = "E" then some "" else none,
    readRemote := fun _ _ => none, home := "/home/u", encodings := [] }

/-- C8 (code bug): a strip-indent directive whose fetched content has no
non-blank line — here an existing empty file, fetched as `[""]` — makes the
indent-stripping step take the minimum of an empty sequence: Python's `min`
raises `ValueError` and the whole run aborts, where the claim (and the
spec) require this step never to raise. -/
theorem C8_strip_indent_value_error :
    get_local_content_list envC8 "E" "utf-8" = ([""], true)
    ∧ stripIndentStep "<" [""] = .error .valueErrorMinEmpty
    ∧ (mdx_include_get_processed_lines cfgNoRec envC8 fmC8 2
        ["\x7b!<E!\x7d"] "" pstEmpty).1 = .error .valueErrorMinEmpty :=
  ⟨by decide, by decide, by decide⟩

/-! ## Claim C9 -/

/-- C9: when line processing ends in an error, `run` propagates it with the
state exactly as it was at the raise — the two cache-clean flags are never
consulted, so both caches keep every entry, and in particular every entry
present before the run is still present in the surfaced state. -/
theorem C9_no_cache_clean_on_error (cfg : Config) (env : Env) (fm : String → List RMatch)
    (fuel : Nat) (lines : List String) (st0 : PState) (er : Err) (st' : PState)
    (h : mdx_include_get_processed_lines cfg env fm fuel lines ""
      { st0 with cyclic := ⟨[]⟩ } = (.error er, st')) :
    run cfg env fm fuel lines st0 = (.error er, st')
    ∧ (∀ k v, st0.cacheLocal.lookup k = some v → st'.cacheLocal.lookup k = some v)
    ∧ (∀ k v, st0.cacheRemote.lookup k = some v → st'.cacheRemote.lookup k = some v) := by
  refine ⟨?_, ?_, ?_⟩
  · simp only [run, h]
  · intro k v hkv
    have he := evol_processedLines cfg env fm fuel lines "" { st0 with cyclic := ⟨[]⟩ }
    rw [h] at he
    exact he.1 k v hkv
  · intro k v hkv
    have he := evol_processedLines cfg env fm fuel lines "" { st0 with cyclic := ⟨[]⟩ }
    rw [h] at he
    exact he.2.1 k v hkv

/-- Configuration asking for both caches to be cleaned after processing. -/
def cfgC9 : Config :=
  { cfg0 with content_cache_clean_local := true, content_cache_clean_remote := true }

def mC9 : RMatch := ⟨false, none, "", "", "A", none, none, "\x7b!A!\x7d", 0, 5⟩

def fmC9 : String → List RMatch := fun line => if line = "\x7b!A!\x7d" then [mC9] else []

/-- Environment where the file `A` includes itself. -/
def envC9 : Env :=
  { readLocal := fun f _ => if f = "A" then some "\x7b!A!\x7d" else none,
    readRemote := fun _ _ => none, home := "/home/u", encodings := [] }

/-- Final state of the self-inclusion run at the moment of the raise. -/
def stC9final : PState :=
  ⟨[("A", ["\x7b!A!\x7d"])], [], ⟨[("A", ["", "", "A"]), ("A", [""])]⟩, ["A"], []⟩

/-- Witness for C9: a run with both clean flags set aborts on the
self-inclusion cycle and still surfaces the cache entry populated for `A`
before the failure. -/
theorem C9_no_cache_clean_on_error_witness :
    cfgC9.content_cache_clean_local = true
    ∧ cfgC9.content_cache_clean_remote = true
    ∧ run cfgC9 envC9 fmC9 3 ["\x7b!A!\x7d"] pstEmpty =
        (.error (.cyclicInclusion "A" "A" ["", "", "A"]), stC9final)
    ∧ stC9final.cacheLocal.lookup "A" = some ["\x7b!A!\x7d"] :=
  ⟨rfl, rfl,
    (C9_no_cache_clean_on_error cfgC9 envC9 fmC9 3 ["\x7b!A!\x7d"] pstEmpty
      (.cyclicInclusion "A" "A" ["", "", "A"]) stC9final (by decide)).1,
    by decide⟩

/-! ## Claim C10 -/

theorem rstripSlashes_toList (s : String) :
    (rstripSlashes s).toList = (s.toList.reverse.dropWhile (fun c => c == '/')).reverse := by
  cases s
  rfl

theorem toList_append (a b : String) : (a ++ b).toList = a.toList ++ b.toList := by
  cases a
  cases b
  rfl

/-- Stripping trailing slashes from a string that starts with `/` followed
by a non-slash character keeps those first two characters. -/
theorem rstrip_keeps_head {c : Char} {t : List Char} (hc : c ≠ '/') (home : String)
    (hh : home.toList = '/' :: c :: t) :
    ∃ w, (rstripSlashes home).toList = '/' :: c :: w := by
  have hrev : home.toList.reverse = t.reverse ++ [c, '/'] := by
    rw [hh]
    simp
  rw [rstripSlashes_toList, hrev]
  have hsplit := @List.dropWhile_append Char (fun ch => ch == '/') t.reverse [c, '/']
  rw [hsplit]
  have hstop : List.dropWhile (fun ch => ch == '/') [c, '/'] = [c, '/'] := by
    rw [List.dropWhile_cons]
    simp [hc]
  split
  · rw [hstop]
    exact ⟨[], by simp⟩
  · exact ⟨(List.dropWhile (fun ch => ch == '/') t.reverse).reverse, by simp⟩

/-- A list starting with a two-element pattern also starts with the
one-element pattern. -/
theorem isPrefixOf_shorten (a b : Char) (l : List Char)
    (h : List.isPrefixOf [a, b] l = true) : List.isPrefixOf [a] l = true := by
  rcases l with _ | ⟨x, xs⟩
  · simp [List.isPrefixOf] at h
  · simp only [List.isPrefixOf, Bool.and_eq_true] at h ⊢
    exact ⟨h.1, trivial⟩

/-- A string starting with `/` followed by a non-slash character parses with
no URL netloc. -/
theorem urlNetloc_of_cons {c : Char} (hc : c ≠ '/') (z : List Char) (s : String)
    (hs : s.toList = '/' :: c :: z) : urlNetloc s = "" := by
  simp only [urlNetloc, hs]
  have hrest : urlRestAfterScheme ('/' :: c :: z) = '/' :: c :: z := by
    simp only [urlRestAfterScheme]
    rw [if_neg]
    intro hcond
    have hpre := hcond.2.2.1
    rw [List.takeWhile_cons] at hpre
    rw [if_pos (by decide)] at hpre
    simp only [List.headD_cons] at hpre
    exact absurd hpre (by decide)
  rw [hrest, if_neg]
  intro h2
  simp at h2
  exact hc h2

/-- C10: a non-escaped directive path of the form `~` or `~/…` is, for a
home directory that is an absolute path `/x…`, replaced by that home
directory (trailing slashes stripped) before any classification: the result
is an absolute path, carries no URL netloc — so it is classified local —
and passes through local resolution unchanged for every configuration and
parent, so neither `base_path` nor the parent document's directory takes
part in resolving it. -/
theorem C10_tilde_expansion (home p : String)
    (hp : p = "~" ∨ startsWithStr p "~/" = true)
    (hh : ∃ c t, home.toList = '/' :: c :: t ∧ c ≠ '/') :
    expanduser home p = rstripSlashes home ++ pyDrop p 1
    ∧ isabs (expanduser home p) = true
    ∧ urlNetloc (expanduser home p) = ""
    ∧ ∀ (cfg : Config) (parent : String),
        resolveLocalFilename cfg parent (expanduser home p) = expanduser home p := by
  obtain ⟨c, t, hht, hc⟩ := hh
  obtain ⟨w, hw⟩ := rstrip_keeps_head hc home hht
  have hfl : (rstripSlashes home ++ pyDrop p 1).toList =
      '/' :: c :: (w ++ (pyDrop p 1).toList) := by
    rw [toList_append, hw]
    simp
  have hne : rstripSlashes home ++ pyDrop p 1 ≠ "" := by
    intro h0
    have h1 := congrArg String.toList h0
    rw [hfl] at h1
    simp at h1
  have htilde : startsWithStr p "~" = true := by
    rcases hp with h | h
    · rw [h]
      rfl
    · exact isPrefixOf_shorten '~' '/' p.toList h
  have hexp : expanduser home p = rstripSlashes home ++ pyDrop p 1 := by
    simp only [expanduser, htilde]
    rw [if_neg (by simp), if_pos hp, if_neg hne]
  have hfl2 : (expanduser home p).toList = '/' :: c :: (w ++ (pyDrop p 1).toList) := by
    rw [hexp, hfl]
  have habs : isabs (expanduser home p) = true := by
    simp only [isabs, startsWithStr, hfl2]
    simp [List.isPrefixOf]
  refine ⟨hexp, habs, ?_, ?_⟩
  · exact urlNetloc_of_cons hc _ _ hfl2
  · intro cfg parent
    simp [resolveLocalFilename, habs]

/-- Witness for C10 at the home directory `/home/u` and path `~/doc.md`. -/
theorem C10_tilde_expansion_witness :
    expanduser "/home/u" "~/doc.md" = rstripSlashes "/home/u" ++ pyDrop "~/doc.md" 1
    ∧ isabs (expanduser "/home/u" "~/doc.md") = true
    ∧ urlNetloc (expanduser "/home/u" "~/doc.md") = ""
    ∧ resolveLocalFilename cfg0 "sub/parent.md" (expanduser "/home/u" "~/doc.md") =
        expanduser "/home/u" "~/doc.md" := by
  have h := C10_tilde_expansion "/home/u" "~/doc.md" (.inr (by decide))
    ⟨'h', "ome/u".toList, by decide, by decide⟩
  exact ⟨h.1, h.2.1, h.2.2.1, h.2.2.2 cfg0 "sub/parent.md"⟩

end MdxInclude
